import Mathlib

/-!
Verification of the symbolic controlled-operator construction
(`pennylane/ops/op_math/controlled_class.py`).

The embedding is shallow: the `Controlled` class becomes a Lean structure
holding the base operator and the control metadata, and each method becomes
a Lean function translated from the Python source.  Matrices are modelled
as a size together with an entry function into `ℂ`; fallible representations
(`matrix`, `sparse_matrix`, `generator`) are `Option`-valued on the base
operator, and methods that can raise return `Except`.
-/

/-- Dense or sparse matrix: a size `n` together with an entry function.
Only entries with both indices below `size` are meaningful. -/
structure Mat where
  size : Nat
  entry : Nat → Nat → ℂ

/-- Equality of matrices on their meaningful entries. -/
def matEq (A B : Mat) : Prop :=
  A.size = B.size ∧ ∀ i j, i < A.size → j < A.size → A.entry i j = B.entry i j

/-- Identity matrix of a given size (`qml.math.eye`). -/
def eye (n : Nat) : Mat :=
  ⟨n, fun i j => if i = j then 1 else 0⟩

/-- Block-diagonal concatenation of three square blocks
(`qml.math.block_diag([left_pad, base_matrix, right_pad])`). -/
def blockDiag3 (A B C : Mat) : Mat where
  size := A.size + B.size + C.size
  entry i j :=
    if i < A.size then
      (if j < A.size then A.entry i j else 0)
    else if i < A.size + B.size then
      (if A.size ≤ j ∧ j < A.size + B.size then B.entry (i - A.size) (j - A.size) else 0)
    else
      (if A.size + B.size ≤ j then
        C.entry (i - (A.size + B.size)) (j - (A.size + B.size)) else 0)

/-- Overwrite the square sub-block with rows and columns in `[s, e)` of `m`
by `t` (the sparse assignment `m[start_ind:end_ind, start_ind:end_ind] = target_mat`). -/
def overwriteBlock (m : Mat) (s e : Nat) (t : Mat) : Mat where
  size := m.size
  entry i j :=
    if s ≤ i ∧ i < e ∧ s ≤ j ∧ j < e then t.entry (i - s) (j - s) else m.entry i j

/-- Abstract observable, carrying the eigenvalues that the external
`qml.eigvals` would report for it (rationals: numerically computed values). -/
structure Obs where
  obEigvals : List ℚ

/-- The base operator, as consumed by `Controlled`: the fields mirror the
members of the external operator interface that the controlled-class code
reads.  `none` in `matrix` / `sparse_matrix` / `generator` models the
corresponding `...UndefinedError` being raised by the base. -/
structure BaseOp where
  name : String
  wires : List Nat
  matrix : Option Mat
  sparse_matrix : Option Mat
  eigvals : List ℂ
  num_params : Nat
  generator : Option Obs

/-- The `Controlled` operator's state: `hyperparameters["base"]`,
`["control_wires"]`, `["control_values"]`, `["work_wires"]`. -/
structure Controlled where
  base : BaseOp
  control_wires : List Nat
  control_values : List Bool
  work_wires : List Nat

/-- Wires of the target operator (`Controlled.target_wires = base.wires`). -/
def Controlled.target_wires (c : Controlled) : List Nat :=
  c.base.wires

/-- Conversion of `control_values` to an integer
(`sum(2**i for i, val in enumerate(reversed(self.control_values)) if val)`). -/
def controlInt (cv : List Bool) : Nat :=
  (cv.reverse.enum.map (fun p => if p.2 then 2 ^ p.1 else 0)).sum

/-- `Controlled._control_int`. -/
def Controlled.control_int (c : Controlled) : Nat :=
  controlInt c.control_values

/-- Reading a boolean list as an MSB-first binary numeral (the spec's
description of `control_int`). -/
def msbVal (cv : List Bool) : Nat :=
  cv.foldl (fun acc b => 2 * acc + (if b then 1 else 0)) 0

/-- Reading a boolean list LSB-first: the head has weight `2^0`. -/
def lsbVal (cv : List Bool) : Nat :=
  cv.foldr (fun b acc => (if b then 1 else 0) + 2 * acc) 0

lemma enumFromSum_eq_lsbVal (n : Nat) (l : List Bool) :
    ((List.enumFrom n l).map (fun p => if p.2 then 2 ^ p.1 else 0)).sum
      = 2 ^ n * lsbVal l := by
  induction l generalizing n with
  | nil => simp [lsbVal]
  | cons b t ih =>
    simp only [List.enumFrom_cons, List.map_cons, List.sum_cons, ih, lsbVal,
      List.foldr_cons]
    rw [← lsbVal]
    by_cases hb : b = true <;> simp [hb, pow_succ] <;> ring

lemma enumSum_eq_lsbVal (l : List Bool) :
    (l.enum.map (fun p => if p.2 then 2 ^ p.1 else 0)).sum = lsbVal l := by
  have h := enumFromSum_eq_lsbVal 0 l
  simpa [List.enum] using h

lemma msbVal_foldl_shift (l : List Bool) (a : Nat) :
    l.foldl (fun acc b => 2 * acc + (if b then 1 else 0)) a
      = a * 2 ^ l.length + msbVal l := by
  induction l generalizing a with
  | nil => simp [msbVal]
  | cons b t ih =>
    simp only [List.foldl_cons, List.length_cons, msbVal]
    rw [ih, ih (2 * 0 + _)]
    ring

lemma lsbVal_append_singleton (l : List Bool) (b : Bool) :
    lsbVal (l ++ [b]) = lsbVal l + 2 ^ l.length * (if b then 1 else 0) := by
  induction l with
  | nil => simp [lsbVal]
  | cons x t ih =>
    simp only [List.cons_append, lsbVal, List.foldr_cons, List.length_cons] at *
    rw [ih]
    ring

lemma lsbVal_reverse (l : List Bool) : lsbVal l.reverse = msbVal l := by
  induction l with
  | nil => rfl
  | cons b t ih =>
    simp only [List.reverse_cons, msbVal, List.foldl_cons]
    rw [lsbVal_append_singleton, ih, msbVal_foldl_shift]
    simp only [List.length_reverse]
    ring

lemma controlInt_eq_msbVal (cv : List Bool) : controlInt cv = msbVal cv := by
  rw [controlInt, enumSum_eq_lsbVal, lsbVal_reverse]

lemma lsbVal_lt (l : List Bool) : lsbVal l < 2 ^ l.length := by
  induction l with
  | nil => simp [lsbVal]
  | cons b t ih =>
    simp only [lsbVal, List.foldr_cons, List.length_cons, pow_succ] at *
    by_cases hb : b <;> simp [hb] <;> omega

lemma controlInt_lt (cv : List Bool) : controlInt cv < 2 ^ cv.length := by
  rw [controlInt, enumSum_eq_lsbVal]
  simpa using lsbVal_lt cv.reverse

/-- C4: `_control_int` reads `control_values` as an MSB-first bit-string:
it equals the MSB-first fold, and in particular
`[True, False] ↦ 2`, `[True, True] ↦ 3`, `[False, False] ↦ 0`. -/
theorem control_int_msb_first :
    (∀ c : Controlled, c.control_int = msbVal c.control_values)
      ∧ controlInt [true, false] = 2
      ∧ controlInt [true, true] = 3
      ∧ controlInt [false, false] = 0 := by
  refine ⟨fun c => controlInt_eq_msbVal _, ?_, ?_, ?_⟩ <;> decide

/-- `Controlled.matrix` on the `wire_order=None` path (the canonical matrix;
a differing wire order is handed to the external `operation.expand_matrix`
collaborator and is outside this development).  The Python locals are
inlined: `num_target_states = 2 ** len(target_wires)`,
`num_control_states = 2 ** len(control_wires)`,
`total_matrix_size = num_control_states * num_target_states`,
`padding_left = _control_int * num_target_states`,
`padding_right = total_matrix_size - padding_left - num_target_states`.
`none` models the base raising `MatrixUndefinedError`. -/
def Controlled.matrix (c : Controlled) : Option Mat :=
  c.base.matrix.map fun base_matrix =>
    blockDiag3
      (eye (c.control_int * 2 ^ c.target_wires.length))
      base_matrix
      (eye (2 ^ c.control_wires.length * 2 ^ c.target_wires.length
        - c.control_int * 2 ^ c.target_wires.length - 2 ^ c.target_wires.length))

/-- The spec's description of the controlled matrix, written entrywise:
identity everywhere except the diagonal block of size `2^tLen` that starts
at `controlInt cv * 2^tLen`, which holds the base matrix. -/
def controlledMatrixSpec (cv : List Bool) (cLen tLen : Nat) (M : Mat) : Mat where
  size := 2 ^ (cLen + tLen)
  entry i j :=
    if controlInt cv * 2 ^ tLen ≤ i ∧ i < controlInt cv * 2 ^ tLen + 2 ^ tLen
        ∧ controlInt cv * 2 ^ tLen ≤ j ∧ j < controlInt cv * 2 ^ tLen + 2 ^ tLen then
      M.entry (i - controlInt cv * 2 ^ tLen) (j - controlInt cv * 2 ^ tLen)
    else if i = j then 1 else 0

/-- C1: with no wire order, `matrix()` is the block-diagonal matrix made of
an identity block of size `control_int * 2^t`, the base matrix, and a
trailing identity block, i.e. entrywise the identity except for the base
block at offset `control_int * 2^t`. -/
theorem matrix_block_diagonal (c : Controlled) (M : Mat)
    (hM : c.base.matrix = some M)
    (hsize : M.size = 2 ^ c.target_wires.length)
    (hlen : c.control_values.length = c.control_wires.length) :
    ∃ R, c.matrix = some R ∧
      matEq R (controlledMatrixSpec c.control_values c.control_wires.length
        c.target_wires.length M) := by
  have hlt : controlInt c.control_values < 2 ^ c.control_wires.length := by
    rw [← hlen]; exact controlInt_lt _
  have hst : controlInt c.control_values * 2 ^ c.target_wires.length
      + 2 ^ c.target_wires.length
      ≤ 2 ^ c.control_wires.length * 2 ^ c.target_wires.length := by
    have h1 : controlInt c.control_values + 1 ≤ 2 ^ c.control_wires.length := hlt
    calc controlInt c.control_values * 2 ^ c.target_wires.length
        + 2 ^ c.target_wires.length
      = (controlInt c.control_values + 1) * 2 ^ c.target_wires.length := by ring
    _ ≤ 2 ^ c.control_wires.length * 2 ^ c.target_wires.length :=
        Nat.mul_le_mul_right _ h1
  refine ⟨_, by rw [Controlled.matrix, hM]; rfl, ?_, ?_⟩
  · simp only [blockDiag3, eye, controlledMatrixSpec, Controlled.control_int, hsize,
      pow_add]
    omega
  · intro i j hi hj
    simp only [blockDiag3, eye, controlledMatrixSpec, Controlled.control_int,
      hsize] at hi hj ⊢
    split_ifs <;> first | rfl | (exfalso; omega)

/-- The PauliX matrix `[[0,1],[1,0]]`. -/
def pauliXMat : Mat :=
  ⟨2, fun i j => if i + j = 1 then 1 else 0⟩

/-- A base operator for `qml.PauliX(1)`. -/
def pauliXBase : BaseOp where
  name := "PauliX"
  wires := [1]
  matrix := some pauliXMat
  sparse_matrix := none
  eigvals := [1, -1]
  num_params := 0
  generator := none

/-- `Controlled(qml.PauliX(1), 0)` with `control_values=[True]`. -/
def cnotOp : Controlled :=
  ⟨pauliXBase, [0], [true], []⟩

/-- The standard CNOT matrix `[[1,0,0,0],[0,1,0,0],[0,0,0,1],[0,0,1,0]]`. -/
def stdCNOT : Mat :=
  ⟨4, fun i j =>
    if (i = 0 ∧ j = 0) ∨ (i = 1 ∧ j = 1) ∨ (i = 2 ∧ j = 3) ∨ (i = 3 ∧ j = 2)
    then 1 else 0⟩

/-- Witness for C1: on `Controlled(PauliX(1), 0)` with `control_values=[True]`
the matrix is the standard CNOT matrix. -/
theorem matrix_block_diagonal_witness :
    ∃ R, cnotOp.matrix = some R ∧ matEq R stdCNOT := by
  obtain ⟨R, hR, hsz, hent⟩ :=
    matrix_block_diagonal cnotOp pauliXMat rfl rfl rfl
  have hspec : (controlledMatrixSpec cnotOp.control_values
      cnotOp.control_wires.length cnotOp.target_wires.length pauliXMat).size = 4 := rfl
  have hc : controlInt cnotOp.control_values = 1 := by decide
  refine ⟨R, hR, by rw [hsz, hspec, stdCNOT], ?_⟩
  intro i j hi hj
  rw [hsz, hspec] at hi
  rw [hsz, hspec] at hj
  rw [hent i j (by rw [hsz, hspec]; exact hi) (by rw [hsz, hspec]; exact hj)]
  have ht : cnotOp.target_wires.length = 1 := rfl
  simp only [controlledMatrixSpec, hc, ht, pauliXMat, stdCNOT]
  interval_cases i <;> interval_cases j <;> norm_num

/-- `Controlled.eigvals`: `total = 2 ** (num_target_wires + num_control_wires)`
ones of count `total - len(base_eigvals)` (`np.ones`), then the base
eigenvalues (`qml.math.concatenate([ones, base_eigvals])`). -/
def Controlled.eigvals (c : Controlled) : List ℂ :=
  List.replicate
    (2 ^ (c.target_wires.length + c.control_wires.length) - c.base.eigvals.length) 1
    ++ c.base.eigvals

/-- C2: when the base reports `2^t` eigenvalues, `eigvals()` prepends
`2^(c+t) - 2^t` ones, and the result is independent of `control_values`
(hence of `control_int`). -/
theorem eigvals_prepends_ones (c : Controlled)
    (h : c.base.eigvals.length = 2 ^ c.target_wires.length) :
    c.eigvals = List.replicate
        (2 ^ (c.control_wires.length + c.target_wires.length)
          - 2 ^ c.target_wires.length) 1 ++ c.base.eigvals
      ∧ ∀ cv' : List Bool,
          ({ c with control_values := cv' } : Controlled).eigvals = c.eigvals := by
  refine ⟨?_, fun cv' => rfl⟩
  rw [Controlled.eigvals, h, Nat.add_comm c.target_wires.length]

/-- Witness for C2: on `Controlled(PauliX(1), 0)` with `control_values=[True]`
the eigenvalues are `[1, 1, 1, -1]`. -/
theorem eigvals_prepends_ones_witness :
    cnotOp.base.eigvals.length = 2 ^ cnotOp.target_wires.length
      ∧ cnotOp.eigvals = [1, 1, 1, -1] := by
  refine ⟨rfl, ?_⟩
  rw [(eigvals_prepends_ones cnotOp rfl).1]
  rfl

/-- Shared wires of two wire sequences (`Wires.shared_wires`): the labels of
the first sequence that also occur in the second. -/
def sharedWires (a b : List Nat) : List Nat :=
  a.filter (· ∈ b)

/-- Form of the `control_values` constructor argument: omitted (`None`), a
boolean sequence, or the deprecated string form. -/
inductive CtrlValues where
  | default
  | bools (l : List Bool)
  | str (s : String)

/-- `Controlled.__init__`: validates and builds the operator.  The result
pairs the operator with whether the string-deprecation warning was emitted;
an `error` carries the failing assertion's message.  Mirrors the source: a
`None` value defaults to all-`True`; a string converts each character `'1'`
to `True` and every other character to `False` (with a warning) and is then
validated like a boolean sequence; the assertions check the length match,
that the values are booleans, and that base wires and control wires share no
wire.  Work wires are not validated.  Queuing (`do_queue`) and `id` are
external bookkeeping and carry no semantics here. -/
def mkControlled (base : BaseOp) (control_wires : List Nat)
    (cv : CtrlValues) (work_wires : List Nat) :
    Except String (Controlled × Bool) :=
  match cv with
  | .default =>
      if (sharedWires base.wires control_wires).length = 0 then
        .ok (⟨base, control_wires,
          List.replicate control_wires.length true, work_wires⟩, false)
      else .error "The control wires must be different from the base operation wires."
  | .bools l =>
      if l.length = control_wires.length then
        if l.all (fun b => b == false || b == true) then
          if (sharedWires base.wires control_wires).length = 0 then
            .ok (⟨base, control_wires, l, work_wires⟩, false)
          else .error "The control wires must be different from the base operation wires."
        else .error "control_values can only take on True or False"
      else .error "control_values should be the same length as control_wires"
  | .str s =>
      let l := s.toList.map (fun x => x == '1')
      if l.length = control_wires.length then
        if l.all (fun b => b == false || b == true) then
          if (sharedWires base.wires control_wires).length = 0 then
            .ok (⟨base, control_wires, l, work_wires⟩, true)
          else .error "The control wires must be different from the base operation wires."
        else .error "control_values can only take on True or False"
      else .error "control_values should be the same length as control_wires"

lemma all_bool_trivial (l : List Bool) :
    l.all (fun b => b == false || b == true) = true := by
  rw [List.all_eq_true]
  intro x _
  cases x <;> rfl

lemma mkControlled_bools_isOk (base : BaseOp) (cw ww : List Nat) (l : List Bool) :
    (mkControlled base cw (.bools l) ww).isOk = true
      ↔ l.length = cw.length ∧ sharedWires base.wires cw = [] := by
  rw [mkControlled]
  split_ifs with h1 h2 h3
  · simp [Except.isOk, Except.toBool, h1, List.length_eq_zero.mp h3]
  · simp only [Except.isOk, Except.toBool]
    constructor
    · intro h; cases h
    · rintro ⟨-, hnil⟩
      exact absurd (by rw [hnil]; rfl) h3
  · exact absurd (all_bool_trivial l) h2
  · simp only [Except.isOk, Except.toBool]
    constructor
    · intro h; cases h
    · rintro ⟨hl, -⟩; exact absurd hl h1

lemma mkControlled_default_isOk (base : BaseOp) (cw ww : List Nat) :
    (mkControlled base cw .default ww).isOk = true
      ↔ sharedWires base.wires cw = [] := by
  rw [mkControlled]
  split_ifs with h1
  · simp [Except.isOk, Except.toBool, List.length_eq_zero.mp h1]
  · simp only [Except.isOk, Except.toBool]
    constructor
    · intro h; cases h
    · intro hnil; exact absurd (by rw [hnil]; rfl) h1

lemma mkControlled_str_eq (base : BaseOp) (cw ww : List Nat) (s : String) :
    mkControlled base cw (.str s) ww
      = (mkControlled base cw
          (.bools (s.toList.map (fun x => x == '1'))) ww).map
          (fun r => (r.1, true)) := by
  rw [mkControlled, mkControlled]
  split_ifs <;> rfl

/-- Counterexample for C3: the constructor succeeds even though the work
wire `0` coincides with the (only) control wire `0` — work wires are never
checked for disjointness. -/
theorem construction_work_overlap_accepted :
    (mkControlled pauliXBase [0] (.bools [true]) [0]).isOk = true
      ∧ sharedWires [0] [0] ≠ [] := by
  exact ⟨rfl, by decide⟩

/-- C3 (amended): construction succeeds exactly when the provided
`control_values` has the length of `control_wires` and the base wires share
no wire with the control wires; an omitted `control_values` leaves only the
disjointness check; work wires are not validated at all. -/
theorem construction_validation (base : BaseOp) (cw ww : List Nat) :
    (∀ l : List Bool, (mkControlled base cw (.bools l) ww).isOk = true
        ↔ l.length = cw.length ∧ sharedWires base.wires cw = [])
      ∧ ((mkControlled base cw .default ww).isOk = true
        ↔ sharedWires base.wires cw = [])
      ∧ ∀ ww' : List Nat,
          (mkControlled base cw .default ww').isOk
            = (mkControlled base cw .default ww).isOk := by
  refine ⟨fun l => mkControlled_bools_isOk base cw ww l,
    mkControlled_default_isOk base cw ww, fun ww' => ?_⟩
  rw [mkControlled, mkControlled]
  split_ifs <;> rfl

/-- C9: a string argument for `control_values` is accepted wholesale: each
character `'1'` becomes `True`, every other character becomes `False`, the
deprecation warning is emitted, and only the length and base-wire
disjointness checks are then applied; in particular `"1a0"` converts to
`[True, False, False]`. -/
theorem string_control_values (base : BaseOp) (cw ww : List Nat) (s : String) :
    (mkControlled base cw (.str s) ww
        = (mkControlled base cw
            (.bools (s.toList.map (fun x => x == '1'))) ww).map
            (fun r => (r.1, true)))
      ∧ ((mkControlled base cw (.str s) ww).isOk = true
        ↔ s.toList.length = cw.length ∧ sharedWires base.wires cw = [])
      ∧ ("1a0".toList.map (fun x => x == '1')) = [true, false, false] := by
  refine ⟨mkControlled_str_eq base cw ww s, ?_, by decide⟩
  rw [mkControlled_str_eq base cw ww s]
  have h := mkControlled_bools_isOk base cw ww (s.toList.map (fun x => x == '1'))
  rw [List.length_map] at h
  rw [← h]
  cases mkControlled base cw (.bools (s.toList.map (fun x => x == '1'))) ww <;> rfl

/-- Operators that can appear in a decomposition: `qml.PauliX(w)` gates and
`Controlled` operators. -/
inductive Op where
  | pauliX (w : Nat)
  | controlled (c : Controlled)

/-- `Controlled.decomposition`: when some control value is `False`, conjugate
an all-`True` `Controlled` (built with `control_values=None`, hence the
all-`True` default, and the same work wires) by an X gate on each
`False`-valued control wire; otherwise defer to the generic
`Operator.decomposition` (external; `none` here). -/
def Controlled.decomposition (c : Controlled) : Option (List Op) :=
  if !(c.control_values.all id) then
    some ((((c.control_wires.zip c.control_values).filter
              (fun p => !p.2)).map (fun p => Op.pauliX p.1))
      ++ [Op.controlled ⟨c.base, c.control_wires,
            List.replicate c.control_wires.length true, c.work_wires⟩]
      ++ (((c.control_wires.zip c.control_values).filter
              (fun p => !p.2)).map (fun p => Op.pauliX p.1)))
  else none

lemma zip_filter_not_snd_length :
    ∀ (a : List Nat) (b : List Bool), b.length = a.length →
      ((a.zip b).filter (fun p => !p.2)).length = b.count false
  | [], [], _ => rfl
  | [], _ :: _, h => by simp at h
  | _ :: _, [], h => by simp at h
  | x :: xs, y :: ys, h => by
    simp only [List.length_cons, Nat.succ_inj] at h
    have ih := zip_filter_not_snd_length xs ys h
    cases y <;>
      simp [List.zip_cons_cons, List.filter_cons, List.count_cons, ih]

/-- C5: when at least one control value is `False`, `decomposition()` is a
PauliX on each `False`-valued control wire, then one all-`True` `Controlled`
of the same base on the same control wires and work wires, then the same
PauliX gates again; the flank has one X gate per `False` control value. -/
theorem decomposition_flips_false_controls (c : Controlled)
    (hlen : c.control_values.length = c.control_wires.length)
    (h : c.control_values.all id = false) :
    ∃ flips : List Op,
      c.decomposition = some (flips
          ++ [Op.controlled ⟨c.base, c.control_wires,
                List.replicate c.control_wires.length true, c.work_wires⟩]
          ++ flips)
        ∧ flips = ((c.control_wires.zip c.control_values).filter
            (fun p => !p.2)).map (fun p => Op.pauliX p.1)
        ∧ flips.length = c.control_values.count false := by
  refine ⟨_, ?_, rfl, ?_⟩
  · rw [Controlled.decomposition, h]
    rfl
  · rw [List.length_map, zip_filter_not_snd_length _ _ hlen]

/-- The example `Controlled(PauliX(1), 0, control_values=[False])`. -/
def cnotFalseOp : Controlled :=
  ⟨pauliXBase, [0], [false], []⟩

/-- Witness for C5: decomposing a `Controlled(PauliX(1), 0)` with
`control_values=[False]` gives an X on wire 0, the all-`True` controlled
operator, and an X on wire 0 again. -/
theorem decomposition_flips_witness :
    cnotFalseOp.control_values.length = cnotFalseOp.control_wires.length
      ∧ cnotFalseOp.control_values.all id = false
      ∧ cnotFalseOp.decomposition = some [Op.pauliX 0,
          Op.controlled ⟨pauliXBase, [0], [true], []⟩, Op.pauliX 0] := by
  refine ⟨rfl, rfl, ?_⟩
  obtain ⟨flips, hd, hf, -⟩ :=
    decomposition_flips_false_controls cnotFalseOp rfl rfl
  rw [hd, hf]
  rfl

/-- `Controlled.adjoint`, parametrized by the base hierarchy's `adjoint`
method (`badj`, an external collaborator): it calls the `Controlled`
constructor on `base.adjoint()` with the same control wires, control values
and work wires. -/
def Controlled.adjoint (badj : BaseOp → BaseOp) (c : Controlled) :
    Except String (Controlled × Bool) :=
  mkControlled (badj c.base) c.control_wires (.bools c.control_values)
    c.work_wires

/-- `Controlled.pow`, parametrized by the base hierarchy's `pow` method
(`bpow`, which may return several operators): each returned operator is
wrapped by the `Controlled` constructor with the same control metadata. -/
def Controlled.pow (bpow : BaseOp → Int → List BaseOp) (c : Controlled)
    (z : Int) : Except String (List (Controlled × Bool)) :=
  (bpow c.base z).mapM
    (fun op => mkControlled op c.control_wires (.bools c.control_values)
      c.work_wires)

lemma mkControlled_bools_ok (base : BaseOp) (cw ww : List Nat) (l : List Bool)
    (hlen : l.length = cw.length) (hdisj : sharedWires base.wires cw = []) :
    mkControlled base cw (.bools l) ww = .ok (⟨base, cw, l, ww⟩, false) := by
  rw [mkControlled]
  rw [if_pos hlen, if_pos (all_bool_trivial l),
    if_pos (by rw [hdisj]; rfl)]

lemma mapM_ok_of_forall {α β ε : Type} (f : α → Except ε β) (g : α → β) :
    ∀ l : List α, (∀ a ∈ l, f a = .ok (g a)) →
      l.mapM f = .ok (l.map g)
  | [], _ => rfl
  | a :: t, h => by
    have ht := mapM_ok_of_forall f g t (fun x hx => h x (List.mem_cons_of_mem a hx))
    rw [List.mapM_cons, h a (List.mem_cons_self a t), ht, List.map_cons]
    rfl

/-- C6: `adjoint()` wraps `base.adjoint()` and `pow(z)` wraps every element
of `base.pow(z)` in a `Controlled` with the original's control wires, control
values and work wires (given that the wrapped operators keep their wires
disjoint from the control wires, so the constructor's assertions pass). -/
theorem adjoint_pow_preserve_metadata (badj : BaseOp → BaseOp)
    (bpow : BaseOp → Int → List BaseOp) (c : Controlled) (z : Int)
    (hlen : c.control_values.length = c.control_wires.length)
    (hadj : sharedWires (badj c.base).wires c.control_wires = [])
    (hpow : ∀ op ∈ bpow c.base z, sharedWires op.wires c.control_wires = []) :
    c.adjoint badj = .ok (⟨badj c.base, c.control_wires, c.control_values,
        c.work_wires⟩, false)
      ∧ c.pow bpow z = .ok ((bpow c.base z).map
          (fun op => (⟨op, c.control_wires, c.control_values,
            c.work_wires⟩, false))) := by
  constructor
  · exact mkControlled_bools_ok _ _ _ _ hlen hadj
  · exact mapM_ok_of_forall _ _ _
      (fun op hop => mkControlled_bools_ok _ _ _ _ hlen (hpow op hop))

/-- Witness for C6: with an identity `adjoint` and a singleton `pow` on the
CNOT example, both wrappers carry the original control metadata. -/
theorem adjoint_pow_preserve_metadata_witness :
    cnotOp.adjoint (fun b => b)
        = .ok (⟨pauliXBase, [0], [true], []⟩, false)
      ∧ cnotOp.pow (fun b _ => [b]) 2
        = .ok [(⟨pauliXBase, [0], [true], []⟩, false)] := by
  have h := adjoint_pow_preserve_metadata (fun b => b) (fun b _ => [b])
    cnotOp 2 rfl rfl
    (by intro op hop; rw [List.mem_singleton] at hop; rw [hop]; rfl)
  exact ⟨h.1, h.2⟩

/-- Errors of `Controlled.sparse_matrix`: `NotImplementedError` for an
explicit wire order, and `SparseMatrixUndefinedError` (chained from the
dense `MatrixUndefinedError`) when neither representation exists. -/
inductive SparseErr where
  | notImplemented
  | sparseUndefined

/-- `Controlled.sparse_matrix`: rejects any `wire_order`; takes the base's
sparse matrix, falling back to sparsifying `base.matrix()`
(`sparse.lil_matrix`); when both are undefined raises
`SparseMatrixUndefinedError`; otherwise overwrites the diagonal block
`[start_ind, end_ind)` of a sparse identity of `total_states =
num_target_states * num_control_states` with the base matrix, where
`start_ind = _control_int * num_target_states` and
`end_ind = start_ind + num_target_states`. -/
def Controlled.sparse_matrix (c : Controlled) (wire_order : Option (List Nat)) :
    Except SparseErr Mat :=
  match wire_order with
  | some _ => .error .notImplemented
  | none =>
    match (match c.base.sparse_matrix with
           | some m => some m
           | none => c.base.matrix) with
    | none => .error .sparseUndefined
    | some target_mat =>
      .ok (overwriteBlock
        (eye (2 ^ c.target_wires.length * 2 ^ c.control_wires.length))
        (c.control_int * 2 ^ c.target_wires.length)
        (c.control_int * 2 ^ c.target_wires.length + 2 ^ c.target_wires.length)
        target_mat)

/-- C7: `sparse_matrix` fails exactly on a requested wire order or when both
the sparse and the dense base representations are undefined; it prefers the
base's sparse matrix and falls back to the dense one; a successful result is
the identity with the base block overwritten at offset
`control_int * 2^t`, i.e. it agrees entrywise with the block-diagonal
description used for the dense matrix. -/
theorem sparse_matrix_behavior (c : Controlled) :
    (∀ wo : List Nat, c.sparse_matrix (some wo) = .error .notImplemented)
      ∧ (∀ m, c.base.sparse_matrix = some m →
          c.sparse_matrix none = .ok (overwriteBlock
            (eye (2 ^ c.target_wires.length * 2 ^ c.control_wires.length))
            (c.control_int * 2 ^ c.target_wires.length)
            (c.control_int * 2 ^ c.target_wires.length
              + 2 ^ c.target_wires.length) m))
      ∧ (c.base.sparse_matrix = none → ∀ m, c.base.matrix = some m →
          c.sparse_matrix none = .ok (overwriteBlock
            (eye (2 ^ c.target_wires.length * 2 ^ c.control_wires.length))
            (c.control_int * 2 ^ c.target_wires.length)
            (c.control_int * 2 ^ c.target_wires.length
              + 2 ^ c.target_wires.length) m))
      ∧ (c.sparse_matrix none = .error .sparseUndefined
          ↔ c.base.sparse_matrix = none ∧ c.base.matrix = none)
      ∧ (∀ m R, c.sparse_matrix none = .ok R →
          (c.base.sparse_matrix = some m
            ∨ (c.base.sparse_matrix = none ∧ c.base.matrix = some m)) →
          matEq R (controlledMatrixSpec c.control_values
            c.control_wires.length c.target_wires.length m)) := by
  refine ⟨fun wo => rfl, ?_, ?_, ?_, ?_⟩
  · intro m hm
    rw [Controlled.sparse_matrix, hm]
  · intro hs m hm
    rw [Controlled.sparse_matrix, hs, hm]
  · rw [Controlled.sparse_matrix]
    rcases hs : c.base.sparse_matrix with - | m
    · rcases hm : c.base.matrix with - | m
      · simp
      · simp
    · simp
  · intro m R hR hm
    have hR' : R = overwriteBlock
        (eye (2 ^ c.target_wires.length * 2 ^ c.control_wires.length))
        (c.control_int * 2 ^ c.target_wires.length)
        (c.control_int * 2 ^ c.target_wires.length
          + 2 ^ c.target_wires.length) m := by
      rcases hm with hm | ⟨hs, hm⟩
      · rw [Controlled.sparse_matrix, hm] at hR
        exact (Except.ok.inj hR).symm
      · rw [Controlled.sparse_matrix, hs, hm] at hR
        exact (Except.ok.inj hR).symm
    subst hR'
    constructor
    · simp only [overwriteBlock, eye, controlledMatrixSpec, pow_add]
      ring
    · intro i j hi hj
      simp only [overwriteBlock, eye, controlledMatrixSpec,
        Controlled.control_int]

/-- Witness for C7: on the CNOT example the base has no sparse matrix, so
the dense fallback is used; a wire order is rejected; the result is the
4-by-4 identity with the PauliX block written at offset 2. -/
theorem sparse_matrix_behavior_witness :
    cnotOp.sparse_matrix (some [0, 1]) = .error .notImplemented
      ∧ cnotOp.sparse_matrix none
          = .ok (overwriteBlock (eye 4) 2 4 pauliXMat) := by
  have h := sparse_matrix_behavior cnotOp
  exact ⟨h.1 [0, 1], h.2.2.1 rfl pauliXMat rfl⟩

/-- Errors of `ControlledOperation.parameter_frequencies`: the
`ParameterFrequenciesUndefinedError` chained from the base's
`GeneratorUndefinedError`, and the one raised directly when
`base.num_params` is not 1. -/
inductive PFErr where
  | fromGenerator
  | paramCount

/-- Rounding to 8 decimal places (`np.round(x, 8)`). -/
def round8 (q : ℚ) : ℚ :=
  (round (q * 10 ^ 8) : ℤ) / 10 ^ 8

/-- `ControlledOperation.parameter_frequencies`, parametrized by the
external `qml.gradients.eigvals_to_frequencies` (`e2f`); `qml.generator`
reads the base's `generator` field and `qml.eigvals` the observable's
eigenvalues.  When `base.num_params == 1` and the generator exists, a `0`
eigenvalue is appended (the control projectors), the eigenvalues are rounded
to 8 decimals, and a one-element frequency list is returned; otherwise the
error is raised. -/
def parameter_frequencies {F : Type} (e2f : List ℚ → F) (c : Controlled) :
    Except PFErr (List F) :=
  if c.base.num_params = 1 then
    match c.base.generator with
    | none => .error .fromGenerator
    | some base_gen =>
        .ok [e2f ((base_gen.obEigvals ++ [0]).map round8)]
  else .error .paramCount

/-- A parameterless base operator that nevertheless has a generator. -/
def zeroParamGenBase : BaseOp where
  name := "ZeroParam"
  wires := [1]
  matrix := none
  sparse_matrix := none
  eigvals := []
  num_params := 0
  generator := some ⟨[1, -1]⟩

/-- `Controlled` over the parameterless base. -/
def zeroParamCtrl : Controlled :=
  ⟨zeroParamGenBase, [0], [true], []⟩

/-- Counterexample for C8: with `num_params = 0` and a defined generator the
code still raises `ParameterFrequenciesUndefinedError`, although the base
has neither more than one parameter nor an undefined generator. -/
theorem parameter_frequencies_zero_params :
    (parameter_frequencies (fun l => l) zeroParamCtrl).isOk = false
      ∧ ¬ zeroParamCtrl.base.num_params > 1
      ∧ zeroParamCtrl.base.generator.isSome = true := by
  exact ⟨rfl, by decide, rfl⟩

/-- C8 (amended): `parameter_frequencies` fails exactly when the base's
parameter count differs from one (not only when it exceeds one) or its
generator is undefined; otherwise it returns the frequencies derived from
the generator's eigenvalues with a `0` appended. -/
theorem parameter_frequencies_iff {F : Type} (e2f : List ℚ → F)
    (c : Controlled) :
    ((parameter_frequencies e2f c).isOk = false
        ↔ c.base.num_params ≠ 1 ∨ c.base.generator = none)
      ∧ ∀ g, c.base.num_params = 1 → c.base.generator = some g →
          parameter_frequencies e2f c
            = .ok [e2f ((g.obEigvals ++ [0]).map round8)] := by
  constructor
  · rw [parameter_frequencies]
    split_ifs with h1
    · rcases hg : c.base.generator with - | g
      · simp [Except.isOk, Except.toBool, h1]
      · simp [Except.isOk, Except.toBool, h1]
    · simp [Except.isOk, Except.toBool, h1]
  · intro g h1 hg
    rw [parameter_frequencies, if_pos h1, hg]

/-- A one-parameter base operator with generator eigenvalues `±1/2`. -/
def oneParamGenBase : BaseOp where
  name := "RX"
  wires := [1]
  matrix := none
  sparse_matrix := none
  eigvals := []
  num_params := 1
  generator := some ⟨[1/2, -1/2]⟩

/-- `Controlled` over the one-parameter base. -/
def oneParamCtrl : Controlled :=
  ⟨oneParamGenBase, [0], [true], []⟩

/-- Witness for C8: on the one-parameter base the derivation succeeds and
appends the `0` eigenvalue. -/
theorem parameter_frequencies_iff_witness :
    parameter_frequencies (fun l => l) oneParamCtrl
      = .ok [[1/2, -1/2, 0]] := by
  have h := (parameter_frequencies_iff (fun l => l) oneParamCtrl).2
    ⟨[1/2, -1/2]⟩ rfl rfl
  rw [h]
  have e1 : round8 (1/2) = 1/2 := by
    rw [round8, show ((1 : ℚ)/2 * 10 ^ 8) = ((50000000 : ℤ) : ℚ) by norm_num,
      round_intCast]
    norm_num
  have e2 : round8 (-1/2) = -1/2 := by
    rw [round8, show ((-1 : ℚ)/2 * 10 ^ 8) = ((-50000000 : ℤ) : ℚ) by norm_num,
      round_intCast]
    norm_num
  have e3 : round8 0 = 0 := by
    rw [round8, show ((0 : ℚ) * 10 ^ 8) = ((0 : ℤ) : ℚ) by norm_num,
      round_intCast]
    norm_num
  simp only [List.cons_append, List.nil_append, List.map_cons, List.map_nil,
    e1, e2, e3]

/-- Base operation state as seen by the `ControlledOperation` mixin: the
inversion flag `_inverse` and the name as a function of that flag (an
Operation's displayed name changes with its inversion state; the exact
naming scheme lives outside this excerpt). -/
structure OperationBase where
  inverse : Bool
  nameOf : Bool → String

/-- Current name of the base operation (`base.name`). -/
def OperationBase.opName (b : OperationBase) : String :=
  b.nameOf b.inverse

/-- Modelled from the spec: `Operation.inv` is defined outside this excerpt
(`pennylane.operation`); per the spec's inversion model (design note on
in-place inversion state) it toggles the base's inversion flag, and the
base's name follows through `opName`. -/
def OperationBase.invToggle (b : OperationBase) : OperationBase :=
  { b with inverse := !b.inverse }

/-- Inversion-relevant state of an Operation-capable `Controlled`
(`ControlledOperation`): the base and the cached `_name`. -/
structure COp where
  base : OperationBase
  cachedName : String

/-- The `_inverse` property getter: always returns `False`. -/
def COp.inverseFlag (_ : COp) : Bool :=
  false

/-- The `_inverse` property setter: assigns to `base._inverse` and
refreshes the cached name to `"C" + base.name`. -/
def COp.setInverse (c : COp) (b : Bool) : COp :=
  { base := { c.base with inverse := b },
    cachedName :=
      "C" ++ ({ c.base with inverse := b } : OperationBase).opName }

/-- `ControlledOperation.inv`: calls `base.inv()` and refreshes the cached
name to `"C" + base.name` (the method also returns `self`). -/
def COp.invOp (c : COp) : COp :=
  { base := c.base.invToggle,
    cachedName := "C" ++ c.base.invToggle.opName }

/-- C10: reading `_inverse` returns `False` on every state, including right
after the setter ran with `True` or after `inv()`; both operations forward
the inversion to the base (the setter writes the flag through, `inv()`
applies the base's own inversion) and refresh the wrapper's name to
`"C" + base.name`. -/
theorem inverse_reads_false (c : COp) (b : Bool) :
    c.inverseFlag = false
      ∧ (c.setInverse true).inverseFlag = false
      ∧ c.invOp.inverseFlag = false
      ∧ (c.setInverse b).base.inverse = b
      ∧ (c.setInverse b).cachedName = "C" ++ (c.setInverse b).base.opName
      ∧ c.invOp.base = c.base.invToggle
      ∧ c.invOp.cachedName = "C" ++ c.invOp.base.opName := by
  exact ⟨rfl, rfl, rfl, rfl, rfl, rfl, rfl⟩
